import Mathlib

/-!
Verification development for the genai-workshop repository.

The repository is a Python CLI that orchestrates local AI backends
(speech-to-text, vision, text generation).  This file gives a shallow
embedding of its orchestration core and proves properties of it:

* strings are embedded as `List Char` (`Str`), with faithful models of the
  Python primitives the code uses (`str.strip`, `str.split`, `str.join`,
  `str.lower`);
* float-valued times and durations are embedded as exact rationals
  (`ℚ`): the code performs only additions, subtractions and comparisons
  on them;
* the two regular expressions of `src/llm/formatters.py:extract_json`
  are embedded as deterministic leftmost-search functions whose
  backtracking behaviour matches Python `re.search` on those patterns;
* `json.loads` / `json.dumps` are embedded by a recursive-descent parser
  and printer over a `JValue` type covering the JSON fragment this
  program manipulates (objects, arrays, strings with basic escapes,
  integers, booleans, null);
* effectful steps (backend transcription, LLM generation) enter the
  models as explicit parameters holding the backend's response, and
  Python exceptions are embedded as `Except` values.
-/

/-- Python strings are embedded as lists of characters. -/
abbrev Str := List Char

/-- Model of Python's whitespace test (`str.isspace` / regex `\s`),
restricted to the ASCII whitespace characters. -/
def pyIsSpace (c : Char) : Bool :=
  c = ' ' || c = '\t' || c = '\n' || c = '\r' || c = '\x0b' || c = '\x0c'

/-- Model of Python `str.strip()`: drop leading and trailing whitespace. -/
def pyStrip (s : Str) : Str :=
  ((s.dropWhile pyIsSpace).reverse.dropWhile pyIsSpace).reverse

/-- Accumulator loop for `pySplit`: walks the text once, collecting the
current word in reverse; a whitespace character closes the current word
(if any), and the final word (if any) is emitted at the end. -/
def pySplitGo (acc : Str) : Str → List Str
  | [] => if acc.isEmpty then [] else [acc.reverse]
  | c :: rest =>
    if pyIsSpace c then
      if acc.isEmpty then pySplitGo [] rest
      else acc.reverse :: pySplitGo [] rest
    else pySplitGo (c :: acc) rest

/-- Model of Python `str.split()` with no separator: split on runs of
whitespace, discarding empty pieces. -/
def pySplit (s : Str) : List Str := pySplitGo [] s

/-- Model of Python `sep.join(pieces)`. -/
def strJoin (sep : Str) : List Str → Str
  | [] => []
  | [x] => x
  | x :: y :: rest => x ++ sep ++ strJoin sep (y :: rest)

/-- Model of Python `str.lower()` (ASCII case folding). -/
def pyLower (s : Str) : Str := s.map Char.toLower

/-
## Chunking utility (`src/audio/chunker.py`)
-/

/-- Loop of `chunk_transcript_by_segments`: the Python generator walks the
segment list carrying the accumulated `current_chunk` and
`current_duration`; when adding the next segment would push the duration
over the limit and the current chunk is non-empty, the current chunk is
yielded and a fresh one is started; the final non-empty chunk is yielded
at the end. -/
def chunkSegsGo (max_duration_seconds : ℚ) :
    List (ℚ × ℚ × Str) → List (ℚ × ℚ × Str) → ℚ → List (List (ℚ × ℚ × Str))
  | [], current_chunk, _ =>
    if current_chunk.isEmpty then [] else [current_chunk]
  | (s, e, t) :: rest, current_chunk, current_duration =>
    let segment_duration := e - s
    if current_duration + segment_duration > max_duration_seconds ∧ current_chunk ≠ [] then
      current_chunk :: chunkSegsGo max_duration_seconds rest [(s, e, t)] segment_duration
    else
      chunkSegsGo max_duration_seconds rest
        (current_chunk ++ [(s, e, t)]) (current_duration + segment_duration)

/-- `chunk_transcript_by_segments(segments, max_duration_seconds)` from
`src/audio/chunker.py`, with the yielded groups collected into a list. -/
def chunk_transcript_by_segments (segments : List (ℚ × ℚ × Str))
    (max_duration_seconds : ℚ) : List (List (ℚ × ℚ × Str)) :=
  chunkSegsGo max_duration_seconds segments [] 0

/-- Duration `end - start` of one segment tuple. -/
def segDur (x : ℚ × ℚ × Str) : ℚ := x.2.1 - x.1

/-- Total duration of a group of segments. -/
def durSum (g : List (ℚ × ℚ × Str)) : ℚ := (g.map segDur).sum

theorem durSum_append_single (g : List (ℚ × ℚ × Str)) (x : ℚ × ℚ × Str) :
    durSum (g ++ [x]) = durSum g + segDur x := by
  simp [durSum]

theorem chunkSegsGo_join (maxd : ℚ) (rest : List (ℚ × ℚ × Str)) :
    ∀ cur d, (chunkSegsGo maxd rest cur d).flatten = cur ++ rest := by
  induction rest with
  | nil =>
    intro cur d
    by_cases h : cur.isEmpty
    · simp [chunkSegsGo, h, List.isEmpty_iff.mp h]
    · simp [chunkSegsGo, h]
  | cons x rest ih =>
    intro cur d
    obtain ⟨s, e, t⟩ := x
    rw [chunkSegsGo]
    by_cases h : d + (e - s) > maxd ∧ cur ≠ []
    · simp only [if_pos h, List.flatten_cons, ih]
      simp
    · simp only [if_neg h, ih]
      simp

theorem chunkSegsGo_nonempty (maxd : ℚ) (rest : List (ℚ × ℚ × Str)) :
    ∀ cur d g, g ∈ chunkSegsGo maxd rest cur d → g ≠ [] := by
  induction rest with
  | nil =>
    intro cur d g hg
    by_cases h : cur.isEmpty <;> simp [chunkSegsGo, h] at hg
    · rcases hg with rfl
      simpa [List.isEmpty_iff] using h
  | cons x rest ih =>
    intro cur d g hg
    obtain ⟨s, e, t⟩ := x
    rw [chunkSegsGo] at hg
    by_cases h : d + (e - s) > maxd ∧ cur ≠ []
    · rw [if_pos h] at hg
      rcases List.mem_cons.mp hg with rfl | hg2
      · exact h.2
      · exact ih _ _ _ hg2
    · rw [if_neg h] at hg
      exact ih _ _ _ hg

theorem chunkSegsGo_bounded (maxd : ℚ) (rest : List (ℚ × ℚ × Str)) :
    ∀ cur d, d = durSum cur →
      (cur = [] ∨ durSum cur ≤ maxd ∨ (∃ x, cur = [x] ∧ maxd < segDur x)) →
      ∀ g ∈ chunkSegsGo maxd rest cur d,
        durSum g ≤ maxd ∨ (∃ x, g = [x] ∧ maxd < segDur x) := by
  induction rest with
  | nil =>
    intro cur d hd hinv g hg
    by_cases h : cur.isEmpty <;> simp [chunkSegsGo, h] at hg
    rcases hg with rfl
    rcases hinv with hc | hc | hc
    · exact absurd hc (by simpa [List.isEmpty_iff] using h)
    · exact Or.inl hc
    · exact Or.inr hc
  | cons x rest ih =>
    intro cur d hd hinv g hg
    obtain ⟨s, e, t⟩ := x
    rw [chunkSegsGo] at hg
    by_cases h : d + (e - s) > maxd ∧ cur ≠ []
    · rw [if_pos h] at hg
      rcases List.mem_cons.mp hg with rfl | hg2
      · rcases hinv with hc | hc | hc
        · exact absurd hc h.2
        · exact Or.inl hc
        · exact Or.inr hc
      · refine ih [(s, e, t)] (e - s) (by simp [durSum, segDur]) ?_ g hg2
        rcases le_or_lt (segDur (s, e, t)) maxd with hle | hlt
        · exact Or.inr (Or.inl (by simpa [durSum] using hle))
        · exact Or.inr (Or.inr ⟨(s, e, t), rfl, hlt⟩)
    · rw [if_neg h] at hg
      have hcases : d + (e - s) ≤ maxd ∨ cur = [] := by
        by_contra hcon
        push_neg at hcon
        exact h ⟨hcon.1, hcon.2⟩
      refine ih (cur ++ [(s, e, t)]) (d + (e - s)) ?_ ?_ g hg
      · rw [durSum_append_single, hd]
        simp [segDur]
      · rcases hcases with hle | hnil
        · refine Or.inr (Or.inl ?_)
          rw [durSum_append_single, ← hd]
          simpa [segDur] using hle
        · subst hnil
          rcases le_or_lt (segDur (s, e, t)) maxd with hle | hlt
          · exact Or.inr (Or.inl (by simpa [durSum] using hle))
          · exact Or.inr (Or.inr ⟨(s, e, t), by simp, hlt⟩)

/-- C2: on any segment list with `end ≥ start ≥ 0` and positive duration
limit, `chunk_transcript_by_segments` yields groups that concatenate, in
order, to exactly the input list (so every segment lands in exactly one
group), no group is empty (in particular the final non-empty group is
yielded), and each group's total duration is at most the limit except
for a singleton group whose one segment itself exceeds the limit. -/
theorem chunk_by_segments_correct (segments : List (ℚ × ℚ × Str)) (maxd : ℚ)
    (hpos : 0 < maxd)
    (hok : ∀ x ∈ segments, 0 ≤ x.1 ∧ x.1 ≤ x.2.1) :
    (chunk_transcript_by_segments segments maxd).flatten = segments ∧
    (∀ g ∈ chunk_transcript_by_segments segments maxd, g ≠ []) ∧
    (∀ g ∈ chunk_transcript_by_segments segments maxd,
      durSum g ≤ maxd ∨ (∃ x, g = [x] ∧ maxd < segDur x)) := by
  refine ⟨?_, ?_, ?_⟩
  · simpa using chunkSegsGo_join maxd segments [] 0
  · intro g hg
    exact chunkSegsGo_nonempty maxd segments [] 0 g hg
  · intro g hg
    exact chunkSegsGo_bounded maxd segments [] 0 (by simp [durSum]) (Or.inl rfl) g hg

/-- Witness for `chunk_by_segments_correct` at a concrete input. -/
theorem chunk_by_segments_correct_witness :
    (0 : ℚ) < 4 ∧
    ((chunk_transcript_by_segments [((0 : ℚ), (2 : ℚ), "a".toList), ((2 : ℚ), (3 : ℚ), "b".toList)] 4).flatten
        = [((0 : ℚ), (2 : ℚ), "a".toList), ((2 : ℚ), (3 : ℚ), "b".toList)] ∧
      (∀ g ∈ chunk_transcript_by_segments [((0 : ℚ), (2 : ℚ), "a".toList), ((2 : ℚ), (3 : ℚ), "b".toList)] 4, g ≠ []) ∧
      (∀ g ∈ chunk_transcript_by_segments [((0 : ℚ), (2 : ℚ), "a".toList), ((2 : ℚ), (3 : ℚ), "b".toList)] 4,
        durSum g ≤ 4 ∨ (∃ x, g = [x] ∧ 4 < segDur x))) :=
  ⟨by norm_num,
    chunk_by_segments_correct _ 4 (by norm_num) (by decide)⟩

/-- `words_per_chunk = int(max_tokens / 1.3)` from
`chunk_transcript_by_tokens`; the float division is modelled exactly, so
this is `floor(max_tokens / 1.3) = floor(10 * max_tokens / 13)`. -/
def words_per_chunk (max_tokens : ℕ) : ℕ := 10 * max_tokens / 13

/-- The slicing loop `for i in range(0, len(words), w): yield words[i:i+w]`
of `chunk_transcript_by_tokens`, for a positive step `w`. -/
def chunkList (w : ℕ) (hw : 0 < w) : List Str → List (List Str)
  | [] => []
  | x :: rest => (x :: rest).take w :: chunkList w hw ((x :: rest).drop w)
termination_by l => l.length
decreasing_by
  simp only [List.length_drop, List.length_cons]
  omega

/-- `chunk_transcript_by_tokens(transcript, max_tokens)` from
`src/audio/chunker.py`, with the yielded chunks collected into a list.
When the computed step `words_per_chunk` is zero, Python's
`range(0, len(words), 0)` raises `ValueError` as soon as the generator
is iterated; this is modelled as the `Except.error` branch. -/
def chunk_transcript_by_tokens (transcript : Str) (max_tokens : ℕ) :
    Except Str (List Str) :=
  let words := pySplit transcript
  if h : words_per_chunk max_tokens = 0 then
    .error "range() arg 3 must not be zero".toList
  else
    .ok ((chunkList (words_per_chunk max_tokens) (Nat.pos_of_ne_zero h) words).map
      (strJoin [' ']))

theorem chunkList_flatten (w : ℕ) (hw : 0 < w) (l : List Str) :
    (chunkList w hw l).flatten = l := by
  induction l using chunkList.induct w hw with
  | case1 => simp [chunkList]
  | case2 x rest ih =>
    rw [chunkList]
    simp only [List.flatten_cons, ih, List.take_append_drop]

theorem chunkList_eq_nil_iff (w : ℕ) (hw : 0 < w) (l : List Str) :
    chunkList w hw l = [] ↔ l = [] := by
  cases l with
  | nil => simp [chunkList]
  | cons x rest => simp [chunkList]

theorem chunkList_length (w : ℕ) (hw : 0 < w) (l : List Str) :
    (chunkList w hw l).length = (l.length + w - 1) / w := by
  induction l using chunkList.induct w hw with
  | case1 =>
    rw [chunkList]
    simp only [List.length_nil, List.length_cons]
    have h0 : 0 + w - 1 < w := by omega
    rw [Nat.div_eq_of_lt h0]
  | case2 x rest ih =>
    rw [chunkList]
    simp only [List.length_cons, ih, List.length_drop, List.length_cons]
    have hn : rest.length + 1 + w - 1 = rest.length + w := by omega
    rw [hn, Nat.add_div_right _ hw]
    rcases le_or_lt w (rest.length + 1) with hle | hlt
    · have h1 : rest.length + 1 - w + w - 1 = rest.length := by omega
      rw [h1]
    · have h1 : rest.length + 1 - w = 0 := by omega
      rw [h1]
      have h2 : 0 + w - 1 < w := by omega
      have h3 : rest.length < w := by omega
      rw [Nat.div_eq_of_lt h2, Nat.div_eq_of_lt h3]

theorem chunkList_chunk_sizes (w : ℕ) (hw : 0 < w) (l : List Str) :
    ∀ c ∈ chunkList w hw l, 0 < c.length ∧ c.length ≤ w := by
  induction l using chunkList.induct w hw with
  | case1 => simp [chunkList]
  | case2 x rest ih =>
    intro c hc
    rw [chunkList] at hc
    rcases List.mem_cons.mp hc with rfl | hc2
    · simp only [List.length_take, List.length_cons]
      omega
    · exact ih c hc2

theorem chunkList_dropLast_sizes (w : ℕ) (hw : 0 < w) (l : List Str) :
    ∀ c ∈ (chunkList w hw l).dropLast, c.length = w := by
  induction l using chunkList.induct w hw with
  | case1 => simp [chunkList]
  | case2 x rest ih =>
    intro c hc
    rw [chunkList] at hc
    cases htail : chunkList w hw ((x :: rest).drop w) with
    | nil => simp [htail] at hc
    | cons y ys =>
      rw [htail] at hc
      rw [List.dropLast_cons_of_ne_nil (by simp)] at hc
      rcases List.mem_cons.mp hc with rfl | hc2
      · have hne : (x :: rest).drop w ≠ [] := by
          intro hnil
          rw [(chunkList_eq_nil_iff w hw _).mpr hnil] at htail
          exact List.noConfusion htail
        have hlen : w < rest.length + 1 := by simpa using hne
        simp only [List.length_take, List.length_cons]
        omega
      · rw [← htail] at hc2
        exact ih c hc2

theorem strJoin_append (sep : Str) (a b : List Str) (ha : a ≠ []) (hb : b ≠ []) :
    strJoin sep (a ++ b) = strJoin sep a ++ sep ++ strJoin sep b := by
  induction a with
  | nil => exact absurd rfl ha
  | cons x xs ih =>
    cases xs with
    | nil =>
      cases b with
      | nil => exact absurd rfl hb
      | cons y ys => simp [strJoin]
    | cons x2 xs2 =>
      have hmid := ih (by simp)
      simp only [List.cons_append] at hmid ⊢
      simp only [strJoin]
      rw [hmid]
      simp [List.append_assoc]

theorem flatten_ne_nil_of_ne {α : Type} (L : List (List α)) (hL : L ≠ [])
    (hmem : ∀ c ∈ L, c ≠ []) : L.flatten ≠ [] := by
  cases L with
  | nil => exact absurd rfl hL
  | cons c rest =>
    have hc : c ≠ [] := hmem c (by simp)
    simp only [List.flatten_cons]
    intro hfl
    exact hc (List.append_eq_nil.mp hfl).1

theorem strJoin_map_strJoin (sep : Str) (L : List (List Str))
    (hmem : ∀ c ∈ L, c ≠ []) :
    strJoin sep (L.map (fun c => strJoin sep c)) = strJoin sep L.flatten := by
  induction L with
  | nil => simp [strJoin]
  | cons c rest ih =>
    have hc : c ≠ [] := hmem c (by simp)
    cases rest with
    | nil => simp [strJoin]
    | cons c2 rest2 =>
      have hmem2 : ∀ d ∈ (c2 :: rest2), d ≠ [] :=
        fun d hd => hmem d (List.mem_cons_of_mem _ hd)
      have ih2 := ih hmem2
      have h1 : strJoin sep ((c :: c2 :: rest2).map (fun x => strJoin sep x))
          = strJoin sep c ++ sep ++ strJoin sep ((c2 :: rest2).map (fun x => strJoin sep x)) := by
        simp only [List.map_cons]
        rw [strJoin]
      have h2 : strJoin sep (c :: c2 :: rest2).flatten
          = strJoin sep c ++ sep ++ strJoin sep ((c2 :: rest2).flatten) := by
        rw [List.flatten_cons]
        exact strJoin_append sep c ((c2 :: rest2).flatten) hc
          (flatten_ne_nil_of_ne _ (by simp) hmem2)
      rw [h1, h2, ih2]

/-- C3: when `words_per_chunk = floor(max_tokens / 1.3)` is at least 1,
`chunk_transcript_by_tokens` succeeds and yields exactly the word-slices
of the whitespace-split transcript joined by single spaces: joining all
chunks with single spaces reproduces the whitespace-normalised
transcript, the number of chunks is `ceil(wordCount / wordsPerChunk)`,
every chunk except possibly the last holds exactly `wordsPerChunk`
words, and every chunk is non-empty with at most `wordsPerChunk` words. -/
theorem chunk_by_tokens_correct (transcript : Str) (max_tokens : ℕ)
    (hpos : 0 < words_per_chunk max_tokens) :
    chunk_transcript_by_tokens transcript max_tokens =
      .ok ((chunkList (words_per_chunk max_tokens) hpos (pySplit transcript)).map
        (fun c => strJoin [' '] c)) ∧
    strJoin [' ']
        ((chunkList (words_per_chunk max_tokens) hpos (pySplit transcript)).map
          (fun c => strJoin [' '] c))
      = strJoin [' '] (pySplit transcript) ∧
    ((chunkList (words_per_chunk max_tokens) hpos (pySplit transcript)).map
        (fun c => strJoin [' '] c)).length
      = ((pySplit transcript).length + words_per_chunk max_tokens - 1) /
          words_per_chunk max_tokens ∧
    (∀ c ∈ (chunkList (words_per_chunk max_tokens) hpos (pySplit transcript)).dropLast,
      c.length = words_per_chunk max_tokens) ∧
    (∀ c ∈ chunkList (words_per_chunk max_tokens) hpos (pySplit transcript),
      0 < c.length ∧ c.length ≤ words_per_chunk max_tokens) := by
  refine ⟨?_, ?_, ?_, ?_, ?_⟩
  · unfold chunk_transcript_by_tokens
    rw [dif_neg (Nat.pos_iff_ne_zero.mp hpos)]
  · rw [strJoin_map_strJoin [' '] _
      (fun c hc => List.length_pos.mp (chunkList_chunk_sizes _ hpos _ c hc).1)]
    rw [chunkList_flatten]
  · rw [List.length_map, chunkList_length]
  · exact chunkList_dropLast_sizes _ hpos _
  · exact chunkList_chunk_sizes _ hpos _

theorem words_per_chunk_two_pos : 0 < words_per_chunk 2 := by decide

/-- Witness for `chunk_by_tokens_correct` at a concrete input. -/
theorem chunk_by_tokens_correct_witness :
    0 < words_per_chunk 2 ∧
    chunk_transcript_by_tokens "a b c".toList 2 =
      .ok ((chunkList (words_per_chunk 2) words_per_chunk_two_pos
        (pySplit "a b c".toList)).map (fun c => strJoin [' '] c)) :=
  ⟨words_per_chunk_two_pos,
    (chunk_by_tokens_correct "a b c".toList 2 words_per_chunk_two_pos).1⟩

/-- C10: when `max_tokens ≤ 1`, the computed `words_per_chunk` is 0 and
iterating the generator raises `ValueError` from `range(0, len(words), 0)`
instead of yielding any chunk; `max_tokens ≥ 2` makes the step positive,
so callers need that precondition. -/
theorem chunk_by_tokens_zero_step (transcript : Str) (max_tokens : ℕ)
    (hm : max_tokens ≤ 1) (hne : pySplit transcript ≠ []) :
    chunk_transcript_by_tokens transcript max_tokens =
      .error "range() arg 3 must not be zero".toList ∧
    (∀ m, 2 ≤ m → 0 < words_per_chunk m) := by
  constructor
  · unfold chunk_transcript_by_tokens
    rw [dif_pos (by unfold words_per_chunk; omega)]
  · intro m hm2
    unfold words_per_chunk
    omega

/-- Witness for `chunk_by_tokens_zero_step` at a concrete input. -/
theorem chunk_by_tokens_zero_step_witness :
    ((1 : ℕ) ≤ 1 ∧ pySplit "hello".toList ≠ []) ∧
    chunk_transcript_by_tokens "hello".toList 1 =
      .error "range() arg 3 must not be zero".toList :=
  ⟨⟨by decide, by decide⟩,
    (chunk_by_tokens_zero_step "hello".toList 1 (by decide) (by decide)).1⟩

/-
## JSON values and `json.loads` (`src/llm/formatters.py` helpers)
-/

/-- The JSON/Python-value fragment this program manipulates: the shapes
producible by `json.loads` on the repository's prompts and responses
(float literals are outside the modelled fragment). -/
inductive JValue where
  | null
  | bool (b : Bool)
  | int (n : ℤ)
  | str (s : Str)
  | arr (items : List JValue)
  | obj (entries : List (Str × JValue))

/-- JSON whitespace skipping (space, tab, newline, carriage return). -/
def skipJWs (s : Str) : Str :=
  s.dropWhile (fun c => c = ' ' || c = '\t' || c = '\n' || c = '\r')

/-- Python `d[k] = v` on an insertion-ordered dict embedded as an
association list: replace in place if the key exists, else append. -/
def pyListSet {α : Type} (l : List (Str × α)) (k : Str) (v : α) : List (Str × α) :=
  if l.any (fun p => p.1 = k) then
    l.map (fun p => if p.1 = k then (k, v) else p)
  else l ++ [(k, v)]

/-- Python `d.get(k)` on an association list. -/
def pyListGet {α : Type} (l : List (Str × α)) (k : Str) : Option α :=
  (l.find? (fun p => p.1 = k)).map (fun p => p.2)

/-- Basic JSON string escapes (`\uXXXX` is outside the modelled fragment). -/
def jsonEscapeChar (c : Char) : Option Char :=
  if c = '"' then some '"'
  else if c = '\\' then some '\\'
  else if c = '/' then some '/'
  else if c = 'n' then some '\n'
  else if c = 't' then some '\t'
  else if c = 'r' then some '\r'
  else if c = 'b' then some '\x08'
  else if c = 'f' then some '\x0c'
  else none

/-- Parse the body of a JSON string after the opening quote; fails on an
unterminated string, an unknown escape, or a raw control character. -/
def parseStringBody : Str → Option (Str × Str)
  | [] => none
  | '"' :: rest => some ([], rest)
  | '\\' :: e :: rest => do
    let c ← jsonEscapeChar e
    let p ← parseStringBody rest
    pure (c :: p.1, p.2)
  | c :: rest =>
    if c.toNat < 32 then none
    else (parseStringBody rest).map (fun p => (c :: p.1, p.2))

/-- Decimal digits to a natural number. -/
def digitsToNat (ds : Str) : ℕ :=
  ds.foldl (fun acc c => 10 * acc + (c.toNat - 48)) 0

/-- Does the remainder continue into a float literal (outside the
modelled JSON fragment)? -/
def floatFollows : Str → Bool
  | [] => false
  | c :: _ => c = '.' || c = 'e' || c = 'E'

/-- Parse a JSON natural-number literal (`0` or a non-zero digit followed
by digits), rejecting continuations into float literals. -/
def parseDigits : Str → Option (ℕ × Str)
  | [] => none
  | c :: rest =>
    if c = '0' then
      if floatFollows rest then none else some (0, rest)
    else if c.isDigit then
      let ds := c :: rest.takeWhile Char.isDigit
      let r := rest.dropWhile Char.isDigit
      if floatFollows r then none else some (digitsToNat ds, r)
    else none

mutual

/-- Recursive-descent model of `json.loads` value parsing.  The fuel
argument bounds recursion depth; `json_loads` supplies more fuel than
any input can consume. -/
def parseValue : ℕ → Str → Except Str (JValue × Str)
  | 0, _ => .error "recursion limit exceeded".toList
  | fuel + 1, s =>
    match skipJWs s with
    | [] => .error "Expecting value".toList
    | 'n' :: rest =>
      if "ull".toList.isPrefixOf rest then .ok (.null, rest.drop 3)
      else .error "Expecting value".toList
    | 't' :: rest =>
      if "rue".toList.isPrefixOf rest then .ok (.bool true, rest.drop 3)
      else .error "Expecting value".toList
    | 'f' :: rest =>
      if "alse".toList.isPrefixOf rest then .ok (.bool false, rest.drop 4)
      else .error "Expecting value".toList
    | '"' :: rest =>
      match parseStringBody rest with
      | some (b, r) => .ok (.str b, r)
      | none => .error "Unterminated string or invalid escape".toList
    | '[' :: rest =>
      match skipJWs rest with
      | ']' :: r2 => .ok (.arr [], r2)
      | _ =>
        match parseElems fuel rest with
        | .ok (items, r2) => .ok (.arr items, r2)
        | .error e => .error e
    | '{' :: rest =>
      match skipJWs rest with
      | '}' :: r2 => .ok (.obj [], r2)
      | _ =>
        match parseMembers fuel rest [] with
        | .ok (kvs, r2) => .ok (.obj kvs, r2)
        | .error e => .error e
    | '-' :: rest =>
      match parseDigits rest with
      | some (n, r2) => .ok (.int (-(n : ℤ)), r2)
      | none => .error "Expecting value".toList
    | c :: rest =>
      if c.isDigit then
        match parseDigits (c :: rest) with
        | some (n, r2) => .ok (.int (n : ℤ), r2)
        | none => .error "Expecting value".toList
      else .error "Expecting value".toList

/-- Comma-separated array elements up to the closing bracket. -/
def parseElems : ℕ → Str → Except Str (List JValue × Str)
  | 0, _ => .error "recursion limit exceeded".toList
  | fuel + 1, s =>
    match parseValue fuel s with
    | .error e => .error e
    | .ok (v, r) =>
      match skipJWs r with
      | ',' :: r2 =>
        match parseElems fuel r2 with
        | .ok (items, r3) => .ok (v :: items, r3)
        | .error e => .error e
      | ']' :: r2 => .ok ([v], r2)
      | _ => .error "Expecting comma delimiter".toList

/-- Comma-separated object members up to the closing brace; duplicate
keys follow Python dict semantics via `pyListSet`. -/
def parseMembers : ℕ → Str → List (Str × JValue) →
    Except Str (List (Str × JValue) × Str)
  | 0, _, _ => .error "recursion limit exceeded".toList
  | fuel + 1, s, acc =>
    match skipJWs s with
    | '"' :: rest =>
      match parseStringBody rest with
      | none => .error "Unterminated string or invalid escape".toList
      | some (k, r) =>
        match skipJWs r with
        | ':' :: r2 =>
          match parseValue fuel r2 with
          | .error e => .error e
          | .ok (v, r3) =>
            match skipJWs r3 with
            | ',' :: r4 => parseMembers fuel r4 (pyListSet acc k v)
            | '}' :: r4 => .ok (pyListSet acc k v, r4)
            | _ => .error "Expecting comma delimiter".toList
        | _ => .error "Expecting colon delimiter".toList
    | _ => .error "Expecting property name enclosed in double quotes".toList

end

/-- Model of `json.loads`: parse one value and require that only
whitespace remains. -/
def json_loads (s : Str) : Except Str JValue :=
  match parseValue (2 * s.length + 2) s with
  | .error e => .error e
  | .ok (v, rest) =>
    if skipJWs rest = [] then .ok v else .error "Extra data".toList

/-
## `extract_json` (`src/llm/formatters.py`) and its two regexes
-/

/-- After a candidate closing delimiter inside a fenced block, the rest
of the pattern is optional whitespace then three backticks. -/
def fenceSuffixOk (s : Str) : Bool :=
  "```".toList.isPrefixOf (s.dropWhile pyIsSpace)

/-- Lazy quantifier body match: find the shortest body such that the
next character is the closing delimiter and the remainder passes the
suffix check — the backtracking behaviour of a lazy `.*?` followed by
the delimiter and the suffix pattern. -/
def lazyClose (close : Char) (sfx : Str → Bool) : Str → Option Str
  | [] => none
  | c :: rest =>
    if c = close ∧ sfx rest then some []
    else (lazyClose close sfx rest).map (fun b => c :: b)

/-- Match, at the start of `s`, the fenced-block pattern of
`extract_json`'s first regex: three backticks, a literal json tag
(optional in the code's regex; `tag_required = true` gives the variant
stated by the spec), optional whitespace, a lazily matched brace- or
bracket-delimited span, optional whitespace, three backticks.  Returns
the captured span.  The greedy tag and whitespace positions admit no
alternative matches (the span must begin with a brace or bracket), so
this deterministic reading agrees with the backtracking engine. -/
def matchFenceAt (tag_required : Bool) (s : Str) : Option Str :=
  if "```".toList.isPrefixOf s then
    let s1 := s.drop 3
    let tagged := "json".toList.isPrefixOf s1
    if tag_required ∧ ¬ tagged then none
    else
      let s2 := if tagged then s1.drop 4 else s1
      match s2.dropWhile pyIsSpace with
      | '{' :: rest => (lazyClose '}' fenceSuffixOk rest).map (fun b => '{' :: (b ++ ['}']))
      | '[' :: rest => (lazyClose ']' fenceSuffixOk rest).map (fun b => '[' :: (b ++ [']']))
      | _ => none
  else none

/-- `re.search` for the fenced-block pattern: leftmost match wins. -/
def reSearchFence (tag_required : Bool) : Str → Option Str
  | [] => none
  | c :: rest =>
    match matchFenceAt tag_required (c :: rest) with
    | some cap => some cap
    | none => reSearchFence tag_required rest

/-- Match, at the start of `s`, the bare-span pattern of `extract_json`'s
second regex: a lazily matched brace- or bracket-delimited span (so the
span ends at the first closing delimiter). -/
def matchSpanAt (s : Str) : Option Str :=
  match s with
  | '{' :: rest => (lazyClose '}' (fun _ => true) rest).map (fun b => '{' :: (b ++ ['}']))
  | '[' :: rest => (lazyClose ']' (fun _ => true) rest).map (fun b => '[' :: (b ++ [']']))
  | _ => none

/-- `re.search` for the bare-span pattern: leftmost match wins. -/
def reSearchSpan : Str → Option Str
  | [] => none
  | c :: rest =>
    match matchSpanAt (c :: rest) with
    | some cap => some cap
    | none => reSearchSpan rest

/-- The `try: json.loads / except JSONDecodeError: raise ValidationError`
tail of `extract_json`: parse the selected candidate, wrapping a parse
failure in the `ValidationError` message carrying the parse error. -/
def parseCandidate (json_str : Str) : Except Str JValue :=
  match json_loads json_str with
  | .ok v => .ok v
  | .error e => .error ("Failed to extract valid JSON from text: ".toList ++ e)

/-- `extract_json(text)` from `src/llm/formatters.py`: take the capture
of the fenced-block regex if it matches, else the capture of the
bare-span regex, else the stripped text; parse that candidate. -/
def extract_json (text : Str) : Except Str JValue :=
  parseCandidate
    (match reSearchFence false text with
    | some c => c
    | none =>
      match reSearchSpan text with
      | some c => c
      | none => pyStrip text)

/-- The extraction algorithm as worded by the spec for claim C1, for
comparison with `extract_json`: identical except that strategy (1) only
accepts a fenced code block carrying the literal json tag. -/
def extract_json_tagged_only (text : Str) : Except Str JValue :=
  parseCandidate
    (match reSearchFence true text with
    | some c => c
    | none =>
      match reSearchSpan text with
      | some c => c
      | none => pyStrip text)


/-- C1 counterexample: on this input the claim's strategy order — a
fenced code block must carry the json tag to be used by strategy (1) —
selects the earlier bare span and yields `{"b": 2}`, while `extract_json`
(whose fenced-block regex makes the tag optional) selects the untagged
fenced block and yields `{"a": 1}`. -/
theorem extract_json_tag_optional_cex :
    extract_json "\x7b\"b\": 2\x7d ```\n\x7b\"a\": 1\x7d\n```".toList
      = .ok (.obj [("a".toList, .int 1)]) ∧
    extract_json_tagged_only "\x7b\"b\": 2\x7d ```\n\x7b\"a\": 1\x7d\n```".toList
      = .ok (.obj [("b".toList, .int 2)]) ∧
    (Except.ok (JValue.obj [("a".toList, JValue.int 1)]) : Except Str JValue)
      ≠ .ok (.obj [("b".toList, .int 2)]) :=
  ⟨rfl, rfl, by simp⟩

/-- C1 (amended: the fenced code block of strategy (1) may carry the
json tag but need not): `extract_json` selects its candidate by the
three strategies in fixed order — fenced code block, else first
brace/bracket-delimited span, else the whole stripped text — parses the
candidate as JSON and returns the parsed value, and on parse failure
fails with the JSON-extraction error carrying the underlying parse
error; the three spec examples behave as stated. -/
theorem extract_json_correct :
    (∀ text cap, reSearchFence false text = some cap →
      extract_json text = parseCandidate cap) ∧
    (∀ text cap, reSearchFence false text = none → reSearchSpan text = some cap →
      extract_json text = parseCandidate cap) ∧
    (∀ text, reSearchFence false text = none → reSearchSpan text = none →
      extract_json text = parseCandidate (pyStrip text)) ∧
    (∀ s, (∃ v, parseCandidate s = .ok v ∧ json_loads s = .ok v) ∨
      (∃ e, parseCandidate s
          = .error ("Failed to extract valid JSON from text: ".toList ++ e) ∧
        json_loads s = .error e)) ∧
    extract_json "```json\n\x7b\"a\":1\x7d\n```".toList = .ok (.obj [("a".toList, .int 1)]) ∧
    extract_json "noise \x7b\"a\":1\x7d noise".toList = .ok (.obj [("a".toList, .int 1)]) ∧
    extract_json "not json at all".toList
      = .error ("Failed to extract valid JSON from text: Expecting value".toList) := by
  refine ⟨?_, ?_, ?_, ?_, rfl, rfl, rfl⟩
  · intro text cap h
    unfold extract_json
    rw [h]
  · intro text cap h1 h2
    unfold extract_json
    rw [h1, h2]
  · intro text h1 h2
    unfold extract_json
    rw [h1, h2]
  · intro s
    unfold parseCandidate
    cases h : json_loads s with
    | ok v => exact Or.inl ⟨v, rfl, rfl⟩
    | error e => exact Or.inr ⟨e, rfl, rfl⟩

/-- Witness for `extract_json_correct` at a concrete input. -/
theorem extract_json_correct_witness :
    reSearchFence false "```json\n\x7b\"a\":1\x7d\n```".toList
      = some "\x7b\"a\":1\x7d".toList ∧
    extract_json "```json\n\x7b\"a\":1\x7d\n```".toList
      = parseCandidate "\x7b\"a\":1\x7d".toList :=
  ⟨rfl, extract_json_correct.1 _ _ rfl⟩

/-
## Transcription client (`src/audio/transcriber.py`)
-/

/-- `TranscriptSegment` dataclass (the Python field `end` is spelled
`end_` since `end` is a Lean keyword). -/
structure TranscriptSegment where
  start : ℚ
  end_ : ℚ
  text : Str
deriving DecidableEq

/-- `TranscriptionResult` dataclass. -/
structure TranscriptionResult where
  segments : List TranscriptSegment
  full_text : Str
  language : Option Str
deriving DecidableEq

/-- One segment dict of the backend (MLX Whisper) response: the parsing
loop reads keys `start`, `end` and `text` with `.get` defaults. -/
structure BackendSegment where
  start : Option ℚ
  end_ : Option ℚ
  text : Option Str
deriving DecidableEq

/-- The backend response as consumed by `Transcriber.transcribe`. -/
structure BackendResult where
  segments : List BackendSegment
  language : Option Str
deriving DecidableEq

/-- The segment-parsing tail of `Transcriber.transcribe` on a backend
response the call returned: each reported segment yields a
`TranscriptSegment` with `start`/`end` defaulting to `0.0` and stripped
text; `full_text` is the space-join of the segment texts. -/
def Transcriber.transcribe (result : BackendResult) : TranscriptionResult :=
  let segments := result.segments.map (fun segment =>
    TranscriptSegment.mk (segment.start.getD 0) (segment.end_.getD 0)
      (pyStrip (segment.text.getD [])))
  TranscriptionResult.mk segments
    (strJoin [' '] (segments.map (fun seg => seg.text)))
    result.language

theorem dropWhile_dropWhile (p : Char → Bool) (l : Str) :
    (l.dropWhile p).dropWhile p = l.dropWhile p := by
  induction l with
  | nil => rfl
  | cons c rest ih =>
    by_cases h : p c
    · simpa [List.dropWhile_cons, h] using ih
    · simp [List.dropWhile_cons, h]

theorem dropWhile_head_not (p : Char → Bool) (l : Str) (c : Char) (rest : Str)
    (h : l.dropWhile p = c :: rest) : p c = false := by
  induction l with
  | nil => simp at h
  | cons a tail ih =>
    by_cases ha : p a
    · rw [List.dropWhile_cons, if_pos ha] at h
      exact ih h
    · rw [List.dropWhile_cons, if_neg ha] at h
      cases h
      simpa using ha

/-- Trailing-whitespace removal, the right half of `pyStrip`. -/
def stripEnd (l : Str) : Str := (l.reverse.dropWhile pyIsSpace).reverse

theorem pyStrip_eq_stripEnd (s : Str) :
    pyStrip s = stripEnd (s.dropWhile pyIsSpace) := rfl

theorem stripEnd_cons (c : Char) (rest : Str) :
    stripEnd (c :: rest) =
      if pyIsSpace c ∧ stripEnd rest = [] then [] else c :: stripEnd rest := by
  unfold stripEnd
  rw [List.reverse_cons, List.dropWhile_append]
  by_cases hempty : rest.reverse.dropWhile pyIsSpace = []
  · rw [hempty]
    by_cases hc : pyIsSpace c <;> simp [List.dropWhile_cons, hc]
  · rw [if_neg (by simpa [List.isEmpty_iff] using hempty)]
    rw [if_neg (fun hcon => hempty (by simpa using congrArg List.reverse hcon.2))]
    simp

theorem dropWhile_stripEnd_comm (l : Str) :
    (stripEnd l).dropWhile pyIsSpace = stripEnd (l.dropWhile pyIsSpace) := by
  induction l with
  | nil => rfl
  | cons c rest ih =>
    rw [stripEnd_cons, List.dropWhile_cons]
    by_cases hc : pyIsSpace c
    · rw [if_pos hc]
      by_cases hnil : stripEnd rest = []
      · rw [if_pos (And.intro hc hnil), ← ih, hnil]
      · rw [if_neg (fun hcon => hnil hcon.2), List.dropWhile_cons, if_pos hc, ih]
    · rw [if_neg hc, if_neg (fun hcon => hc hcon.1), List.dropWhile_cons, if_neg hc,
        stripEnd_cons, if_neg (fun hcon => hc hcon.1)]

theorem stripEnd_stripEnd (l : Str) : stripEnd (stripEnd l) = stripEnd l := by
  unfold stripEnd
  rw [List.reverse_reverse, dropWhile_dropWhile]

/-- `pyStrip` is idempotent: stripped text has no leading or trailing
whitespace left to remove. -/
theorem pyStrip_idem (s : Str) : pyStrip (pyStrip s) = pyStrip s := by
  rw [pyStrip_eq_stripEnd, pyStrip_eq_stripEnd, dropWhile_stripEnd_comm,
    dropWhile_dropWhile, stripEnd_stripEnd]

theorem mem_zip_map_self {α β : Type} (f : α → β) (l : List α) :
    ∀ p ∈ (l.map f).zip l, p.1 = f p.2 := by
  induction l with
  | nil => simp
  | cons a tail ih =>
    intro p hp
    simp only [List.map_cons, List.zip_cons_cons] at hp
    rcases List.mem_cons.mp hp with rfl | h2
    · rfl
    · exact ih p h2

/-- C7 counterexample: the parsing loop copies backend-reported times
verbatim, so a backend segment reporting `start = -1` yields a produced
segment with negative start time — the claimed unconditional
non-negativity does not hold. -/
theorem transcribe_negative_time_cex :
    (Transcriber.transcribe
        (BackendResult.mk [BackendSegment.mk (some (-1)) (some 2) (some " hi ".toList)] none)).segments
      = [TranscriptSegment.mk (-1) 2 "hi".toList] ∧
    ((-1 : ℚ) < 0) := by
  constructor
  · decide
  · decide

/-- C7 (amended: produced start/end times equal the backend-reported
values with missing values defaulting to `0.0`, hence are non-negative
whenever the backend reports only non-negative values): each produced
segment pairs with its backend segment via the defaulting rule and
carries whitespace-trimmed text, and `full_text` is the space-join of
all segment texts — empty when the segment list is empty. -/
theorem transcribe_parse_correct (r : BackendResult) :
    (∀ p ∈ ((Transcriber.transcribe r).segments.zip r.segments),
      p.1.start = p.2.start.getD 0 ∧ p.1.end_ = p.2.end_.getD 0 ∧
        p.1.text = pyStrip (p.2.text.getD [])) ∧
    (∀ s ∈ (Transcriber.transcribe r).segments, pyStrip s.text = s.text) ∧
    ((∀ b ∈ r.segments, 0 ≤ b.start.getD 0 ∧ 0 ≤ b.end_.getD 0) →
      ∀ s ∈ (Transcriber.transcribe r).segments, 0 ≤ s.start ∧ 0 ≤ s.end_) ∧
    (Transcriber.transcribe r).full_text
      = strJoin [' '] ((Transcriber.transcribe r).segments.map (fun s => s.text)) ∧
    (r.segments = [] → (Transcriber.transcribe r).full_text = []) := by
  refine ⟨?_, ?_, ?_, rfl, ?_⟩
  · intro p hp
    rw [show (Transcriber.transcribe r).segments
        = r.segments.map (fun segment => TranscriptSegment.mk (segment.start.getD 0)
          (segment.end_.getD 0) (pyStrip (segment.text.getD []))) from rfl] at hp
    have h := mem_zip_map_self _ r.segments p hp
    rw [h]
    exact ⟨rfl, rfl, rfl⟩
  · intro s hs
    rcases List.mem_map.mp hs with ⟨b, _, rfl⟩
    exact pyStrip_idem _
  · intro hnn s hs
    rcases List.mem_map.mp hs with ⟨b, hb, rfl⟩
    exact ⟨(hnn b hb).1, (hnn b hb).2⟩
  · intro h
    show strJoin [' '] ((r.segments.map _).map _) = []
    rw [h]
    rfl

/-- Witness for `transcribe_parse_correct` at a concrete input. -/
theorem transcribe_parse_correct_witness :
    (∀ b ∈ (BackendResult.mk [BackendSegment.mk (some 1) (some 2) (some "hi ".toList)] none).segments,
      0 ≤ b.start.getD 0 ∧ 0 ≤ b.end_.getD 0) ∧
    (∀ s ∈ (Transcriber.transcribe
        (BackendResult.mk [BackendSegment.mk (some 1) (some 2) (some "hi ".toList)] none)).segments,
      0 ≤ s.start ∧ 0 ≤ s.end_) :=
  ⟨by decide,
    (transcribe_parse_correct
      (BackendResult.mk [BackendSegment.mk (some 1) (some 2) (some "hi ".toList)] none)).2.2.1
      (by decide)⟩

/-
## File-type detection (`src/utils/file_handlers.py`)
-/

/-- `SUPPORTED_AUDIO_FORMATS` from `src/utils/config.py`. -/
def SUPPORTED_AUDIO_FORMATS : List Str :=
  [".wav".toList, ".mp3".toList, ".m4a".toList, ".flac".toList]

/-- `SUPPORTED_IMAGE_FORMATS` from `src/utils/config.py`. -/
def SUPPORTED_IMAGE_FORMATS : List Str :=
  [".jpg".toList, ".jpeg".toList, ".png".toList, ".heic".toList, ".webp".toList]

/-- `detect_file_type(file_path)` from `src/utils/file_handlers.py`,
after its existence check: classify by lower-cased extension against the
supported sets, else fall back to the guessed MIME type (passed in as
`mime_type`, the result of `mimetypes.guess_type`). -/
def detect_file_type (suffix : Str) (mime_type : Option Str) : Str :=
  let sfx := pyLower suffix
  if sfx ∈ SUPPORTED_AUDIO_FORMATS then "audio".toList
  else if sfx ∈ SUPPORTED_IMAGE_FORMATS then "image".toList
  else
    match mime_type with
    | some m =>
      if "audio/".toList.isPrefixOf m then "audio".toList
      else if "image/".toList.isPrefixOf m then "image".toList
      else "unknown".toList
    | none => "unknown".toList

/-- C9: for an existing file, `detect_file_type` returns audio on every
supported audio extension, image on every supported image extension, and
unknown on an unsupported extension whose guessed MIME type (if any) has
neither an audio nor an image prefix. -/
theorem detect_file_type_correct :
    (∀ suffix mime_type, pyLower suffix ∈ SUPPORTED_AUDIO_FORMATS →
      detect_file_type suffix mime_type = "audio".toList) ∧
    (∀ suffix mime_type, pyLower suffix ∈ SUPPORTED_IMAGE_FORMATS →
      detect_file_type suffix mime_type = "image".toList) ∧
    (∀ suffix mime_type, pyLower suffix ∉ SUPPORTED_AUDIO_FORMATS →
      pyLower suffix ∉ SUPPORTED_IMAGE_FORMATS →
      (∀ m, mime_type = some m →
        ¬ "audio/".toList.isPrefixOf m ∧ ¬ "image/".toList.isPrefixOf m) →
      detect_file_type suffix mime_type = "unknown".toList) := by
  refine ⟨?_, ?_, ?_⟩
  · intro suffix mime_type h
    unfold detect_file_type
    rw [if_pos h]
  · intro suffix mime_type h
    unfold detect_file_type
    have ha : pyLower suffix ∉ SUPPORTED_AUDIO_FORMATS := by
      intro hmem
      simp only [SUPPORTED_AUDIO_FORMATS, List.mem_cons, List.mem_singleton,
        List.not_mem_nil, or_false] at hmem
      simp only [SUPPORTED_IMAGE_FORMATS, List.mem_cons, List.mem_singleton,
        List.not_mem_nil, or_false] at h
      rcases hmem with h1 | h1 | h1 | h1 <;> rw [h1] at h <;> revert h <;> decide
    rw [if_neg ha, if_pos h]
  · intro suffix mime_type ha hi hm
    unfold detect_file_type
    rw [if_neg ha, if_neg hi]
    cases mime_type with
    | none => rfl
    | some m =>
      obtain ⟨h1, h2⟩ := hm m rfl
      show (if "audio/".toList.isPrefixOf m = true then "audio".toList
        else if "image/".toList.isPrefixOf m = true then "image".toList
        else "unknown".toList) = "unknown".toList
      rw [if_neg (by simpa using h1), if_neg (by simpa using h2)]

/-- Witness for `detect_file_type_correct` at concrete inputs. -/
theorem detect_file_type_correct_witness :
    (pyLower ".WAV".toList ∈ SUPPORTED_AUDIO_FORMATS ∧
      detect_file_type ".WAV".toList none = "audio".toList) ∧
    (pyLower ".png".toList ∈ SUPPORTED_IMAGE_FORMATS ∧
      detect_file_type ".png".toList none = "image".toList) ∧
    detect_file_type ".txt".toList (some "text/plain".toList) = "unknown".toList :=
  ⟨⟨by decide, detect_file_type_correct.1 ".WAV".toList none (by decide)⟩,
    ⟨by decide, detect_file_type_correct.2.1 ".png".toList none (by decide)⟩,
    detect_file_type_correct.2.2 ".txt".toList (some "text/plain".toList)
      (by decide) (by decide)
      (fun m hm => by cases hm; exact ⟨by decide, by decide⟩)⟩

theorem pyListGet_map_replace {α : Type} (l : List (Str × α)) (k : Str) (v : α)
    (h : l.any (fun p => p.1 = k) = true) :
    pyListGet (l.map (fun p => if p.1 = k then (k, v) else p)) k = some v := by
  induction l with
  | nil => simp at h
  | cons a tail ih =>
    by_cases ha : a.1 = k
    · simp only [List.map_cons, if_pos ha, pyListGet]
      rw [List.find?_cons_of_pos _ (by simp)]
      rfl
    · simp only [List.any_cons, decide_eq_false ha, Bool.false_or] at h
      simp only [List.map_cons, if_neg ha, pyListGet]
      rw [List.find?_cons_of_neg _ (by simpa using ha)]
      exact ih h

theorem pyListGet_append_single {α : Type} (l : List (Str × α)) (k : Str) (v : α)
    (h : l.any (fun p => p.1 = k) = false) :
    pyListGet (l ++ [(k, v)]) k = some v := by
  induction l with
  | nil =>
    simp only [List.nil_append, pyListGet]
    rw [List.find?_cons_of_pos _ (by simp)]
    rfl
  | cons a tail ih =>
    simp only [List.any_cons, Bool.or_eq_false_iff] at h
    have ha : ¬ a.1 = k := by simpa using h.1
    simp only [List.cons_append, pyListGet]
    rw [List.find?_cons_of_neg _ (by simpa using ha)]
    exact ih h.2

/-- Setting a key then reading it back returns the set value. -/
theorem pyListGet_set_self {α : Type} (l : List (Str × α)) (k : Str) (v : α) :
    pyListGet (pyListSet l k v) k = some v := by
  unfold pyListSet
  by_cases h : l.any (fun p => p.1 = k) = true
  · rw [if_pos h]
    exact pyListGet_map_replace l k v h
  · rw [if_neg h]
    exact pyListGet_append_single l k v (Bool.eq_false_iff.mpr h)

theorem pyListGet_map_replace_other {α : Type} (l : List (Str × α)) (k k2 : Str)
    (v : α) (h : k2 ≠ k) :
    pyListGet (l.map (fun p => if p.1 = k then (k, v) else p)) k2 = pyListGet l k2 := by
  induction l with
  | nil => rfl
  | cons a tail ih =>
    by_cases ha : a.1 = k
    · have hk2 : ¬ k = k2 := fun hc => h hc.symm
      have ha2 : ¬ a.1 = k2 := fun hc => h (hc ▸ ha)
      simp only [List.map_cons, if_pos ha, pyListGet]
      rw [List.find?_cons_of_neg _ (by simpa using hk2),
        List.find?_cons_of_neg _ (by simpa using ha2)]
      exact ih
    · simp only [List.map_cons, if_neg ha, pyListGet]
      by_cases ha2 : a.1 = k2
      · rw [List.find?_cons_of_pos _ (by simpa using ha2),
          List.find?_cons_of_pos _ (by simpa using ha2)]
      · rw [List.find?_cons_of_neg _ (by simpa using ha2),
          List.find?_cons_of_neg _ (by simpa using ha2)]
        exact ih

theorem pyListGet_append_single_other {α : Type} (l : List (Str × α)) (k k2 : Str)
    (v : α) (h : k2 ≠ k) :
    pyListGet (l ++ [(k, v)]) k2 = pyListGet l k2 := by
  induction l with
  | nil =>
    have hk2 : ¬ k = k2 := fun hc => h hc.symm
    simp only [List.nil_append, pyListGet]
    rw [List.find?_cons_of_neg _ (by simpa using hk2)]
  | cons a tail ih =>
    simp only [List.cons_append, pyListGet]
    by_cases ha2 : a.1 = k2
    · rw [List.find?_cons_of_pos _ (by simpa using ha2),
        List.find?_cons_of_pos _ (by simpa using ha2)]
    · rw [List.find?_cons_of_neg _ (by simpa using ha2),
        List.find?_cons_of_neg _ (by simpa using ha2)]
      exact ih

/-- Setting a key leaves every other key's lookup unchanged. -/
theorem pyListGet_set_other {α : Type} (l : List (Str × α)) (k k2 : Str) (v : α)
    (h : k2 ≠ k) :
    pyListGet (pyListSet l k v) k2 = pyListGet l k2 := by
  unfold pyListSet
  by_cases hany : l.any (fun p => p.1 = k) = true
  · rw [if_pos hany]
    exact pyListGet_map_replace_other l k k2 v h
  · rw [if_neg hany]
    exact pyListGet_append_single_other l k k2 v h

/-
## Audio pipeline (`src/audio/audio_pipeline.py`)
-/

/-- A value of the result dict of `AudioPipeline.process`
(`dict[str, str | TranscriptionResult]`). -/
inductive AudioVal where
  | text (s : Str)
  | result (r : TranscriptionResult)
deriving DecidableEq

/-- `AudioPipeline.process` after a successful transcription (the claim
assumes the transcription step succeeds; its result enters as
`transcript_result`).  The optional summarization and action-item steps
enter as the outcomes of the respective summarizer calls; a raised
exception is the `Except.error` case and is caught, storing the literal
placeholder string instead. -/
def AudioPipeline.process (transcript_result : TranscriptionResult)
    (summarize : Bool) (summary_outcome : Except Str Str)
    (extract_actions : Bool) (actions_outcome : Except Str Str) :
    List (Str × AudioVal) :=
  let result : List (Str × AudioVal) :=
    [("transcript".toList, AudioVal.result transcript_result),
      ("transcript_text".toList, AudioVal.text transcript_result.full_text)]
  let result :=
    if summarize then
      match summary_outcome with
      | .ok summary => pyListSet result "summary".toList (.text summary)
      | .error _ =>
        pyListSet result "summary".toList (.text "Summary generation failed.".toList)
    else result
  let result :=
    if extract_actions then
      match actions_outcome with
      | .ok action_items => pyListSet result "action_items".toList (.text action_items)
      | .error _ =>
        pyListSet result "action_items".toList
          (.text "Action item extraction failed.".toList)
    else result
  result

/-- C5: when transcription succeeded, summarization was requested and
the summarizer raised any error, `process` still returns normally (the
model is total), the result still holds the full transcript text, and
`result["summary"]` is the literal placeholder string. -/
theorem audio_pipeline_summary_failure (transcript_result : TranscriptionResult)
    (e : Str) (extract_actions : Bool) (actions_outcome : Except Str Str) :
    pyListGet (AudioPipeline.process transcript_result true (.error e)
        extract_actions actions_outcome) "transcript_text".toList
      = some (.text transcript_result.full_text) ∧
    pyListGet (AudioPipeline.process transcript_result true (.error e)
        extract_actions actions_outcome) "summary".toList
      = some (.text "Summary generation failed.".toList) := by
  unfold AudioPipeline.process
  cases extract_actions with
  | false =>
    simp only [Bool.false_eq_true, ite_true, ite_false]
    constructor
    · rw [pyListGet_set_other _ _ _ _ (by decide)]
      rfl
    · exact pyListGet_set_self _ _ _
  | true =>
    simp only [ite_true]
    cases actions_outcome with
    | ok a =>
      constructor
      · rw [pyListGet_set_other _ _ _ _ (by decide),
          pyListGet_set_other _ _ _ _ (by decide)]
        rfl
      · rw [pyListGet_set_other _ _ _ _ (by decide)]
        exact pyListGet_set_self _ _ _
    | error e2 =>
      constructor
      · rw [pyListGet_set_other _ _ _ _ (by decide),
          pyListGet_set_other _ _ _ _ (by decide)]
        rfl
      · rw [pyListGet_set_other _ _ _ _ (by decide)]
        exact pyListGet_set_self _ _ _

/-
## Screen Q&A (`src/pipelines/screen_qa.py`) and the raw vision client
(`src/vision/analyzer.py`)
-/

/-- `ScreenQA.answer` after the vision pipeline call returned
`pipeline_result` (its `dict[str, str]`): read `"answer"` with default
empty string; an empty answer raises `ModelError`. -/
def ScreenQA.answer (pipeline_result : List (Str × Str)) : Except Str Str :=
  let answer := (pyListGet pipeline_result "answer".toList).getD []
  if answer = [] then .error "Failed to generate answer".toList
  else .ok answer

/-- `VisionAnalyzer.answer_question` response handling on a successful
backend call: `response.response.strip() if response.response else ""` —
a missing or empty (falsy) backend response resolves to the empty
string, a non-empty one is stripped; no error is raised. -/
def VisionAnalyzer.answer_question (response : Option Str) : Str :=
  match response with
  | some r => if r = [] then [] else pyStrip r
  | none => []

/-- C6: whenever the vision pipeline's answer value is empty or absent,
`ScreenQA.answer` raises `ModelError` instead of returning the empty
string — even though the raw vision client resolves an empty or missing
backend response to the empty string without failing. -/
theorem screen_qa_empty_answer (pipeline_result : List (Str × Str))
    (h : pyListGet pipeline_result "answer".toList = none ∨
      pyListGet pipeline_result "answer".toList = some []) :
    ScreenQA.answer pipeline_result = .error "Failed to generate answer".toList ∧
    VisionAnalyzer.answer_question none = [] ∧
    VisionAnalyzer.answer_question (some []) = [] := by
  refine ⟨?_, rfl, rfl⟩
  unfold ScreenQA.answer
  rcases h with h | h <;> rw [h] <;> rfl

/-- Witness for `screen_qa_empty_answer` at a concrete input. -/
theorem screen_qa_empty_answer_witness :
    (pyListGet ([("description".toList, "a screen".toList)]) "answer".toList = none ∨
      pyListGet ([("description".toList, "a screen".toList)]) "answer".toList
        = some []) ∧
    ScreenQA.answer [("description".toList, "a screen".toList)]
      = .error "Failed to generate answer".toList :=
  ⟨Or.inl (by decide),
    (screen_qa_empty_answer [("description".toList, "a screen".toList)]
      (Or.inl (by decide))).1⟩

/-
## Output formatting (`src/llm/formatters.py`)
-/

/-- Decimal rendering of a natural number. -/
def natToStr (n : ℕ) : Str := Nat.toDigits 10 n

/-- Decimal rendering of an integer. -/
def intToStr (n : ℤ) : Str :=
  if n < 0 then '-' :: natToStr (-n).toNat else natToStr n.toNat

mutual

/-- Model of Python `repr` on parsed-JSON values. -/
def pyRepr : JValue → Str
  | .null => "None".toList
  | .bool true => "True".toList
  | .bool false => "False".toList
  | .int n => intToStr n
  | .str s => '\'' :: (s ++ ['\''])
  | .arr items => '[' :: (pyReprItems items ++ [']'])
  | .obj kvs => '\x7b' :: (pyReprEntries kvs ++ ['\x7d'])

/-- Comma-separated `repr` of list items. -/
def pyReprItems : List JValue → Str
  | [] => []
  | [v] => pyRepr v
  | v :: rest => pyRepr v ++ ',' :: ' ' :: pyReprItems rest

/-- Comma-separated `repr` of dict entries. -/
def pyReprEntries : List (Str × JValue) → Str
  | [] => []
  | [(k, v)] => ('\'' :: (k ++ ['\''])) ++ ':' :: ' ' :: pyRepr v
  | (k, v) :: rest =>
    ('\'' :: (k ++ ['\''])) ++ ':' :: ' ' :: pyRepr v ++ ',' :: ' ' :: pyReprEntries rest

end

/-- Model of Python `str` on parsed-JSON values (`str` equals `repr`
except on strings, which render without quotes). -/
def pyStr : JValue → Str
  | .str s => s
  | .null => pyRepr .null
  | .bool b => pyRepr (.bool b)
  | .int n => pyRepr (.int n)
  | .arr items => pyRepr (.arr items)
  | .obj kvs => pyRepr (.obj kvs)

/-- JSON string escaping for `json.dumps` (the basic escapes). -/
def jsonEscOut (c : Char) : Str :=
  if c = '"' then ['\\', '"']
  else if c = '\\' then ['\\', '\\']
  else if c = '\n' then ['\\', 'n']
  else if c = '\t' then ['\\', 't']
  else if c = '\r' then ['\\', 'r']
  else [c]

/-- A JSON string literal for `json.dumps`. -/
def jsonQuote (s : Str) : Str := '"' :: ((s.map jsonEscOut).flatten ++ ['"'])

/-- `ind` spaces of indentation. -/
def pad (ind : ℕ) : Str := List.replicate ind ' '

mutual

/-- Model of `json.dumps(data, indent=2, ensure_ascii=False)` at the
current indentation width `ind`. -/
def dumpsVal (ind : ℕ) : JValue → Str
  | .null => "null".toList
  | .bool true => "true".toList
  | .bool false => "false".toList
  | .int n => intToStr n
  | .str s => jsonQuote s
  | .arr [] => "[]".toList
  | .arr (v :: rest) =>
    '[' :: '\n' :: (dumpsItems (ind + 2) (v :: rest) ++ '\n' :: (pad ind ++ [']']))
  | .obj [] => "\x7b\x7d".toList
  | .obj (kv :: rest) =>
    '\x7b' :: '\n' :: (dumpsEntries (ind + 2) (kv :: rest) ++ '\n' :: (pad ind ++ ['\x7d']))

/-- Indented, comma-and-newline-separated array items. -/
def dumpsItems (ind : ℕ) : List JValue → Str
  | [] => []
  | [v] => pad ind ++ dumpsVal ind v
  | v :: rest => pad ind ++ dumpsVal ind v ++ ',' :: '\n' :: dumpsItems ind rest

/-- Indented, comma-and-newline-separated object entries. -/
def dumpsEntries (ind : ℕ) : List (Str × JValue) → Str
  | [] => []
  | [(k, v)] => pad ind ++ jsonQuote k ++ ':' :: ' ' :: dumpsVal ind v
  | (k, v) :: rest =>
    pad ind ++ jsonQuote k ++ ':' :: ' ' :: dumpsVal ind v ++ ',' :: '\n' :: dumpsEntries ind rest

end

/-- `format_json_output(data, indent=2)` from `src/llm/formatters.py`. -/
def format_json_output (data : JValue) : Str := dumpsVal 0 data

/-- The heading/bold line `_dict_to_markdown` emits for one key. -/
def headingLine (level : ℕ) (key : Str) : Str :=
  if level ≤ 6 then List.replicate level '#' ++ ' ' :: key
  else '*' :: '*' :: (key ++ "**".toList)

mutual

/-- `_dict_to_markdown(data, level)` from `src/llm/formatters.py`:
collect the lines for all keys, join them with newlines and append a
trailing newline. -/
def _dict_to_markdown (kvs : List (Str × JValue)) (level : ℕ) : Str :=
  strJoin ['\n'] (mdLinesOf kvs level) ++ ['\n']
termination_by (sizeOf kvs, 1)

/-- The `lines` list built by `_dict_to_markdown`'s loop. -/
def mdLinesOf : List (Str × JValue) → ℕ → List Str
  | [], _ => []
  | (k, v) :: rest, level =>
    (headingLine level k :: valueLines v level) ++ mdLinesOf rest level
termination_by l _ => (sizeOf l, 0)

/-- The lines one value contributes: a nested dict recurses one level
deeper; a list renders dict items recursively and scalar items as
bullet points; a scalar renders on its own line with a blank line. -/
def valueLines : JValue → ℕ → List Str
  | .obj inner, level => [_dict_to_markdown inner (level + 1)]
  | .arr items, level => itemLines items level
  | v, level => [pyStr v ++ ['\n']]
termination_by v _ => (sizeOf v, 0)

/-- The lines of a list value. -/
def itemLines : List JValue → ℕ → List Str
  | [], _ => []
  | .obj inner :: rest, level =>
    _dict_to_markdown inner (level + 1) :: itemLines rest level
  | v :: rest, level => ('-' :: ' ' :: pyStr v) :: itemLines rest level
termination_by l _ => (sizeOf l, 0)

end

/-- The markdown branch of `format_structured_output`:
`_dict_to_markdown(data) if isinstance(data, dict) else str(data)`. -/
def markdown_render (data : JValue) : Str :=
  match data with
  | .obj kvs => _dict_to_markdown kvs 1
  | v => pyStr v

/-- `format_structured_output(data, output_format)` from
`src/llm/formatters.py`: pretty JSON for `"json"`, the recursive
markdown rendering (or `str(data)` for a non-dict) for `"markdown"`, and
`ValueError` for any other format value. -/
def format_structured_output (data : JValue) (output_format : Str) : Except Str Str :=
  if output_format = "json".toList then .ok (format_json_output data)
  else if output_format = "markdown".toList then .ok (markdown_render data)
  else .error ("Unsupported output format: ".toList ++ output_format)

/-- Substring (contiguous infix) relation on embedded strings. -/
def strInfix (a b : Str) : Prop := ∃ p q, b = p ++ a ++ q

theorem strInfix_append_right (a b c : Str) (h : strInfix a b) :
    strInfix a (b ++ c) := by
  obtain ⟨p, q, rfl⟩ := h
  exact ⟨p, q ++ c, by simp⟩

theorem strInfix_of_mem_strJoin (sep : Str) (L : List Str) (a : Str) (ha : a ∈ L) :
    strInfix a (strJoin sep L) := by
  induction L with
  | nil => simp at ha
  | cons x rest ih =>
    rcases List.mem_cons.mp ha with rfl | h2
    · cases rest with
      | nil => exact ⟨[], [], by simp [strJoin]⟩
      | cons y t => exact ⟨[], sep ++ strJoin sep (y :: t), by simp [strJoin]⟩
    · cases rest with
      | nil => simp at h2
      | cons y t =>
        obtain ⟨p, q, hpq⟩ := ih h2
        exact ⟨x ++ sep ++ p, q, by simp [strJoin, hpq]⟩

theorem strInfix_of_mem_mdLines (kvs : List (Str × JValue)) (level : ℕ) (x : Str)
    (hx : x ∈ mdLinesOf kvs level) : strInfix x (_dict_to_markdown kvs level) := by
  rw [_dict_to_markdown]
  exact strInfix_append_right _ _ _ (strInfix_of_mem_strJoin _ _ _ hx)

theorem headingLine_mem_mdLines (kvs : List (Str × JValue)) (level : ℕ)
    (k : Str) (v : JValue) (h : (k, v) ∈ kvs) :
    headingLine level k ∈ mdLinesOf kvs level := by
  induction kvs with
  | nil => simp at h
  | cons a rest ih =>
    obtain ⟨k2, v2⟩ := a
    rw [mdLinesOf]
    rcases List.mem_cons.mp h with heq | h2
    · cases heq
      simp
    · simp only [List.mem_append, List.mem_cons]
      exact Or.inr (ih h2)

theorem valueLines_mem_mdLines (kvs : List (Str × JValue)) (level : ℕ)
    (k : Str) (v : JValue) (h : (k, v) ∈ kvs) (x : Str)
    (hx : x ∈ valueLines v level) : x ∈ mdLinesOf kvs level := by
  induction kvs with
  | nil => simp at h
  | cons a rest ih =>
    obtain ⟨k2, v2⟩ := a
    rw [mdLinesOf]
    rcases List.mem_cons.mp h with heq | h2
    · cases heq
      simp only [List.mem_append, List.mem_cons]
      exact Or.inl (Or.inr hx)
    · simp only [List.mem_append, List.mem_cons]
      exact Or.inr (ih h2)

theorem dict_mem_itemLines (items : List JValue) (level : ℕ) (inner : List (Str × JValue))
    (h : JValue.obj inner ∈ items) :
    _dict_to_markdown inner (level + 1) ∈ itemLines items level := by
  induction items with
  | nil => simp at h
  | cons a rest ih =>
    rcases List.mem_cons.mp h with rfl | h2
    · rw [itemLines]
      simp
    · have hmem := ih h2
      cases a <;> rw [itemLines] <;>
        first
          | exact List.mem_cons_of_mem _ hmem
          | (intro i hcon; exact JValue.noConfusion hcon)

theorem scalar_mem_itemLines (items : List JValue) (level : ℕ) (v : JValue)
    (h : v ∈ items) (hns : ∀ inner, v ≠ JValue.obj inner) :
    ('-' :: ' ' :: pyStr v) ∈ itemLines items level := by
  induction items with
  | nil => simp at h
  | cons a rest ih =>
    rcases List.mem_cons.mp h with rfl | h2
    · cases v <;>
        first
          | exact absurd rfl (hns _)
          | (rw [itemLines] <;>
              first
                | exact List.mem_cons_self _ _
                | (intro i hcon; exact JValue.noConfusion hcon))
    · have hmem := ih h2
      cases a <;> rw [itemLines] <;>
        first
          | exact List.mem_cons_of_mem _ hmem
          | (intro i hcon; exact JValue.noConfusion hcon)

/-- C8: `format_structured_output` with format markdown renders each
mapping key at nesting depth `d` as a heading of level `d` while
`d ≤ 6` (top-level keys at level 1, nested dicts and dict list items
recursing one level deeper), renders keys deeper than level 6 as bold
text, renders scalar list items as bullet points, renders the example
`\x7b"x": \x7b"y": 1\x7d\x7d` with `x` as a level-1 heading and `y` as a
level-2 heading, and fails with the unsupported-format error on any
other format value. -/
theorem format_structured_output_markdown_correct :
    (∀ kvs level k v, (k, v) ∈ kvs → level ≤ 6 →
      strInfix (List.replicate level '#' ++ ' ' :: k) (_dict_to_markdown kvs level)) ∧
    (∀ kvs level k v, (k, v) ∈ kvs → 6 < level →
      strInfix ('*' :: '*' :: (k ++ "**".toList)) (_dict_to_markdown kvs level)) ∧
    (∀ kvs level k inner, (k, JValue.obj inner) ∈ kvs →
      strInfix (_dict_to_markdown inner (level + 1)) (_dict_to_markdown kvs level)) ∧
    (∀ kvs level k items inner, (k, JValue.arr items) ∈ kvs →
      JValue.obj inner ∈ items →
      strInfix (_dict_to_markdown inner (level + 1)) (_dict_to_markdown kvs level)) ∧
    (∀ kvs level k items v, (k, JValue.arr items) ∈ kvs → v ∈ items →
      (∀ inner, v ≠ JValue.obj inner) →
      strInfix ('-' :: ' ' :: pyStr v) (_dict_to_markdown kvs level)) ∧
    (∀ data, format_structured_output data "markdown".toList
      = .ok (markdown_render data)) ∧
    format_structured_output
        (JValue.obj [("x".toList, JValue.obj [("y".toList, JValue.int 1)])])
        "markdown".toList
      = .ok "# x\n## y\n1\n\n\n".toList ∧
    (∀ data fmt, fmt ≠ "json".toList → fmt ≠ "markdown".toList →
      format_structured_output data fmt
        = .error ("Unsupported output format: ".toList ++ fmt)) := by
  refine ⟨?_, ?_, ?_, ?_, ?_, ?_, ?_, ?_⟩
  · intro kvs level k v h hle
    have := strInfix_of_mem_mdLines kvs level _ (headingLine_mem_mdLines kvs level k v h)
    rwa [headingLine, if_pos hle] at this
  · intro kvs level k v h hgt
    have := strInfix_of_mem_mdLines kvs level _ (headingLine_mem_mdLines kvs level k v h)
    rwa [headingLine, if_neg (by omega)] at this
  · intro kvs level k inner h
    refine strInfix_of_mem_mdLines kvs level _
      (valueLines_mem_mdLines kvs level k (JValue.obj inner) h _ ?_)
    rw [valueLines]
    exact List.mem_singleton.mpr rfl
  · intro kvs level k items inner h hmem
    refine strInfix_of_mem_mdLines kvs level _
      (valueLines_mem_mdLines kvs level k (JValue.arr items) h _ ?_)
    rw [valueLines]
    exact dict_mem_itemLines items level inner hmem
  · intro kvs level k items v h hmem hns
    refine strInfix_of_mem_mdLines kvs level _
      (valueLines_mem_mdLines kvs level k (JValue.arr items) h _ ?_)
    rw [valueLines]
    exact scalar_mem_itemLines items level v hmem hns
  · intro data
    rw [format_structured_output, if_neg (by decide), if_pos (by decide)]
  · rw [format_structured_output]
    rw [if_neg (by decide), if_pos (by decide)]
    simp only [markdown_render, _dict_to_markdown, mdLinesOf, valueLines, itemLines,
      headingLine]
    norm_num
    simp [strJoin, pyStr, pyRepr, intToStr, natToStr, Nat.toDigits, Nat.toDigitsCore]
    decide
  · intro data fmt h1 h2
    rw [format_structured_output, if_neg h1, if_neg h2]

/-- Witness for `format_structured_output_markdown_correct` at concrete
inputs. -/
theorem format_structured_output_markdown_correct_witness :
    (("x".toList, JValue.int 1) ∈ [("x".toList, JValue.int 1)] ∧ 1 ≤ 6 ∧
      strInfix (List.replicate 1 '#' ++ ' ' :: "x".toList)
        (_dict_to_markdown [("x".toList, JValue.int 1)] 1)) ∧
    format_structured_output (JValue.obj []) "xml".toList
      = .error ("Unsupported output format: ".toList ++ "xml".toList) :=
  ⟨⟨List.mem_singleton.mpr rfl, by omega,
      format_structured_output_markdown_correct.1 [("x".toList, JValue.int 1)] 1
        "x".toList (JValue.int 1) (List.mem_singleton.mpr rfl) (by omega)⟩,
    format_structured_output_markdown_correct.2.2.2.2.2.2.2 (JValue.obj [])
      "xml".toList (by decide) (by decide)⟩

/-
## Meeting minutes generator (`src/pipelines/meeting_minutes.py`)
-/

/-- Return value of `MeetingMinutesGenerator.generate`: the structured
value (json format) or the rendered string (markdown format). -/
inductive GenOut where
  | data (v : JValue)
  | text (s : Str)

/-- Does the returned structure carry a top-level `"metadata"` key? -/
def has_metadata_key : GenOut → Bool
  | .data (.obj kvs) => kvs.any (fun p => p.1 = "metadata".toList)
  | _ => false

/-- `MeetingMinutesGenerator.generate` after a successful transcription
(result passed as `transcript_result`) and a successful LLM generation
(response passed as `response`): extract JSON from the response, inject
the metadata sub-map when the extracted value is a dict, and render per
the requested output format; failures inside the try block are wrapped
as `ModelError`. -/
def MeetingMinutesGenerator.generate (audio_path : Str)
    (transcript_result : TranscriptionResult) (response : Str)
    (output_format : Str) : Except Str GenOut :=
  let transcript_text := transcript_result.full_text
  match extract_json response with
  | .error e => .error ("Failed to generate meeting minutes: ".toList ++ e)
  | .ok minutes_data =>
    let minutes_data2 := match minutes_data with
      | .obj kvs =>
        JValue.obj (pyListSet kvs "metadata".toList (.obj
          [("source_file".toList, .str audio_path),
            ("transcript_length".toList, .int transcript_text.length),
            ("segments_count".toList, .int transcript_result.segments.length)]))
      | v => v
    if output_format = "markdown".toList then
      match format_structured_output minutes_data2 "markdown".toList with
      | .ok s => .ok (.text s)
      | .error e => .error ("Failed to generate meeting minutes: ".toList ++ e)
    else .ok (.data minutes_data2)

/-- C4 counterexample: an LLM response whose extracted JSON is a list
(not a mapping) completes the pipeline successfully, but the returned
structure is the bare list with no `"metadata"` key. -/
theorem meeting_minutes_metadata_cex :
    MeetingMinutesGenerator.generate "m.wav".toList
        (TranscriptionResult.mk [TranscriptSegment.mk 0 1 "hi".toList] "hi".toList none)
        "[1]".toList "json".toList
      = .ok (.data (.arr [.int 1])) ∧
    has_metadata_key (.data (.arr [.int 1])) = false := by
  exact ⟨rfl, rfl⟩

/-- C4 (amended: when additionally the extracted value is a JSON mapping
and the json output format is selected): the returned mapping is the
extracted mapping with a `"metadata"` key set to the sub-map holding the
source file identifier, the transcript character length, and a
`segments_count` equal to the number of segments in the transcription
result. -/
theorem meeting_minutes_metadata (audio_path : Str)
    (transcript_result : TranscriptionResult) (response : Str)
    (kvs : List (Str × JValue))
    (h : extract_json response = .ok (.obj kvs)) :
    MeetingMinutesGenerator.generate audio_path transcript_result response
        "json".toList
      = .ok (.data (.obj (pyListSet kvs "metadata".toList (.obj
          [("source_file".toList, .str audio_path),
            ("transcript_length".toList, .int transcript_result.full_text.length),
            ("segments_count".toList, .int transcript_result.segments.length)])))) ∧
    pyListGet (pyListSet kvs "metadata".toList (.obj
        [("source_file".toList, .str audio_path),
          ("transcript_length".toList, .int transcript_result.full_text.length),
          ("segments_count".toList, .int transcript_result.segments.length)]))
        "metadata".toList
      = some (.obj
          [("source_file".toList, .str audio_path),
            ("transcript_length".toList, .int transcript_result.full_text.length),
            ("segments_count".toList, .int transcript_result.segments.length)]) := by
  constructor
  · unfold MeetingMinutesGenerator.generate
    rw [h]
    have hne : ¬ (("json".toList : Str) = "markdown".toList) := by decide
    simp only [if_neg hne]
  · exact pyListGet_set_self _ _ _

/-- Witness for `meeting_minutes_metadata` at a concrete input. -/
theorem meeting_minutes_metadata_witness :
    extract_json "\x7b\"a\": 1\x7d".toList = .ok (.obj [("a".toList, JValue.int 1)]) ∧
    MeetingMinutesGenerator.generate "m.wav".toList
        (TranscriptionResult.mk [TranscriptSegment.mk 0 1 "hi".toList] "hi".toList none)
        "\x7b\"a\": 1\x7d".toList "json".toList
      = .ok (.data (.obj (pyListSet [("a".toList, JValue.int 1)] "metadata".toList
          (.obj
            [("source_file".toList, .str "m.wav".toList),
              ("transcript_length".toList, .int ("hi".toList : Str).length),
              ("segments_count".toList, .int ([TranscriptSegment.mk 0 1 "hi".toList] : List TranscriptSegment).length)])))) :=
  ⟨rfl,
    (meeting_minutes_metadata "m.wav".toList
      (TranscriptionResult.mk [TranscriptSegment.mk 0 1 "hi".toList] "hi".toList none)
      "\x7b\"a\": 1\x7d".toList [("a".toList, JValue.int 1)] rfl).1⟩
